import Mathlib

/-!
Shallow embedding of the VibeCoding VS Code extension (TypeScript sources) and
proofs about its versioned file store (`src/fileManager.ts`), task pipeline
(`src/autoCoder.ts`), LLM client factory (`src/AIClients.ts`) and error
recovery engine (`src/errorRecovery.ts`).

Effectful TypeScript methods are modelled as explicit state passing over a
`FMState` record; asynchronous calls are awaited sequentially in the source,
so plain sequential composition is faithful.  Timestamps
(`new Date().toISOString()`) are modelled by a monotone counter `clock`, one
tick per write.
-/

namespace VibeCoding

/-- The `action` field of a `ChangeRecord` (`src/fileManager.ts`). -/
inductive FileAction where
  | created
  | modified
deriving DecidableEq, Repr

/-- The name of a backup file in the `.vibe/history` directory.  The source
builds the string `safeName_vVERSION_TIMESTAMP`; we keep the three
components that determine it. -/
structure BackupName where
  safeName : String
  version : Nat
  timestamp : Nat
deriving DecidableEq, Repr

/-- `ChangeRecord` from `src/fileManager.ts`: one entry of the append-only
change log. `originalPath` is the location of the backup taken for this
version (present on disk only for `modified` writes). -/
structure ChangeRecord where
  filePath : String
  version : Nat
  timestamp : Nat
  originalPath : BackupName
  action : FileAction
deriving DecidableEq, Repr

/-- State of a `FileManager` instance together with the workspace file system
it acts on.  `files` maps a workspace-relative path to the live content,
`backups` maps a history file name to its content, `changeHistory` is the
in-memory log and `persisted` the content of `changeHistory.json` (written by
`saveHistory`). -/
structure FMState where
  files : String → Option String
  backups : BackupName → Option String
  changeHistory : List ChangeRecord
  persisted : List ChangeRecord
  clock : Nat

/-- Point update of a finite map modelled as a function. -/
def update {α β : Type} [DecidableEq α] (f : α → Option β) (k : α) (v : β) :
    α → Option β :=
  fun x => if x = k then some v else f x

/-- `relativePath.replace(/[\/:]/g, '_')` from `writeFile`. -/
def safeName (p : String) : String :=
  ⟨p.toList.map (fun c => if c = '/' ∨ c = ':' then '_' else c)⟩

/-- The records of `changeHistory` belonging to one file
(`this.changeHistory.filter(r => r.filePath === relativePath)`). -/
def recordsFor (h : List ChangeRecord) (p : String) : List ChangeRecord :=
  h.filter (fun r => r.filePath == p)

/-- The version numbers recorded for one file, in log order. -/
def versionsOf (h : List ChangeRecord) (p : String) : List Nat :=
  (recordsFor h p).map (·.version)

/-- Version computation in `FileManager.writeFile`:
`existing.length > 0 ? Math.max(...existing.map(r => r.version)) + 1 : 1`. -/
def nextVersion (h : List ChangeRecord) (p : String) : Nat :=
  let existing := recordsFor h p
  if 0 < existing.length then ((existing.map (·.version)).foldl max 0) + 1 else 1

/-- Result of `FileManager.writeFile`; `ok = false` models the thrown
`Failed to write file` error when `vscode.workspace.applyEdit` reports
failure.  The state is returned in either case because the TypeScript object
was already mutated when the throw happens. -/
structure WriteResult where
  state : FMState
  ok : Bool

/-- The backup file name `writeFile` chooses for the current write:
`${safeName}_v${version}_${timestamp...}`. -/
def writeName (s : FMState) (relativePath : String) : BackupName :=
  ⟨safeName relativePath, nextVersion s.changeHistory relativePath, s.clock⟩

/-- The `ChangeRecord` pushed by `writeFile` for the current write. -/
def writeRecord (s : FMState) (relativePath : String) : ChangeRecord :=
  ⟨relativePath, nextVersion s.changeHistory relativePath, s.clock,
   writeName s relativePath,
   if (s.files relativePath).isSome then FileAction.modified
   else FileAction.created⟩

/-- The backup store after `writeFile` backed up the existing content
(`if (await this.fileExists(fileUri)) ... writeFile(historyUri, oldContent)`). -/
def writeBackups (s : FMState) (relativePath : String) :
    BackupName → Option String :=
  match s.files relativePath with
  | some oldContent => update s.backups (writeName s relativePath) oldContent
  | none => s.backups

/-- `FileManager.writeFile(relativePath, content)`.  The boolean `applyOk`
is the success value of the final `applyEdit` call (the only failure point
modelled).  Order of effects follows the source: backup of the existing
content, push of the `ChangeRecord`, `saveHistory`, then the edit. -/
def writeFile (s : FMState) (relativePath content : String) (applyOk : Bool) :
    WriteResult :=
  let hist := s.changeHistory ++ [writeRecord s relativePath]
  let s1 : FMState := ⟨s.files, writeBackups s relativePath, hist, hist, s.clock + 1⟩
  if applyOk then
    ⟨{ s1 with files := update s1.files relativePath content }, true⟩
  else
    ⟨s1, false⟩

/-- `FileManager.readFile`: `none` models the thrown `NotFound` error. -/
def readFile (s : FMState) (relativePath : String) : Option String :=
  s.files relativePath

/-- `FileManager.getChangeHistory(filePath)` with a path filter. -/
def getChangeHistory (s : FMState) (filePath : String) : List ChangeRecord :=
  s.changeHistory.filter (fun r => r.filePath == filePath)

/-- Outcome of `FileManager.revertToVersion`. -/
inductive RevertOutcome where
  | ok
  /-- the thrown `Version N of path not found` error -/
  | versionNotFound
  /-- `fs.readFile(record.originalPath)` throws: no backup file exists -/
  | backupReadFailed
  /-- the inner `writeFile` threw -/
  | writeFailed
deriving DecidableEq, Repr

/-- The lookup predicate of `revertToVersion`:
`r => r.filePath === filePath && r.version === version`. -/
def revMatch (filePath : String) (version : Nat) : ChangeRecord → Bool :=
  fun r => r.filePath == filePath && r.version == version

/-- `FileManager.revertToVersion(filePath, version)`: find the record for the
exact pair, read its backup, write it back through `writeFile`. -/
def revertToVersion (s : FMState) (filePath : String) (version : Nat) :
    FMState × RevertOutcome :=
  match s.changeHistory.find? (revMatch filePath version) with
  | none => (s, RevertOutcome.versionNotFound)
  | some record =>
    match s.backups record.originalPath with
    | none => (s, RevertOutcome.backupReadFailed)
    | some content =>
      let w := writeFile s filePath content true
      (w.state, if w.ok then RevertOutcome.ok else RevertOutcome.writeFailed)

/-- A fresh `FileManager` on an empty workspace (`initialize` with no
existing `changeHistory.json`). -/
def initState : FMState :=
  ⟨fun _ => none, fun _ => none, [], [], 0⟩

/-- One `writeFile` call of a call sequence. -/
structure WriteOp where
  path : String
  content : String
  applyOk : Bool
deriving DecidableEq, Repr

/-- A successful write, for concrete scenarios. -/
def wr (path content : String) : WriteOp := ⟨path, content, true⟩

/-- Run a sequence of `writeFile` calls. -/
def run (ops : List WriteOp) (s : FMState) : FMState :=
  ops.foldl (fun s op => (writeFile s op.path op.content op.applyOk).state) s

example :
    versionsOf (run [wr "a" "x", wr "b" "y", wr "a" "z"] initState).changeHistory
      "a" = [1, 2] := by decide

example :
    readFile (run [wr "a" "x", wr "a" "z"] initState) "a" = some "z" := by decide

example :
    (revertToVersion (run [wr "a" "x", wr "a" "z"] initState) "a" 2).2 =
      RevertOutcome.ok := by decide

example :
    readFile (revertToVersion (run [wr "a" "x", wr "a" "z"] initState) "a" 2).1
      "a" = some "x" := by decide

example :
    (revertToVersion (run [wr "a" "x"] initState) "a" 1).2 =
      RevertOutcome.backupReadFailed := by decide

example :
    (revertToVersion (run [wr "a" "x"] initState) "a" 7).2 =
      RevertOutcome.versionNotFound := by decide

/-! ### Basic list lemmas -/

theorem init_le_foldl_max (l : List Nat) (acc : Nat) : acc ≤ l.foldl max acc := by
  induction l generalizing acc with
  | nil => simp
  | cons a t ih => exact le_trans (le_max_left acc a) (ih (max acc a))

theorem mem_le_foldl_max (l : List Nat) (a : Nat) (h : a ∈ l) (acc : Nat) :
    a ≤ l.foldl max acc := by
  induction l generalizing acc with
  | nil => cases h
  | cons b t ih =>
    rcases List.mem_cons.mp h with rfl | hmem
    · exact le_trans (le_max_right acc a) (init_le_foldl_max t (max acc a))
    · exact ih hmem (max acc b)

theorem foldl_max_range' (n : Nat) : (List.range' 1 n).foldl max 0 = n := by
  induction n with
  | zero => rfl
  | succ n ih =>
    rw [List.range'_concat, List.foldl_append]
    simp only [List.foldl_cons, List.foldl_nil, ih]
    omega

theorem find?_append_some {α : Type} {p : α → Bool} {l₁ : List α}
    (l₂ : List α) {a : α} (h : l₁.find? p = some a) :
    (l₁ ++ l₂).find? p = some a := by
  rw [List.find?_append, h]; rfl

/-! ### The shape of a single write -/

theorem writeFile_state (s : FMState) (p c : String) (applyOk : Bool) :
    (writeFile s p c applyOk).state =
      ⟨if applyOk then update s.files p c else s.files,
       writeBackups s p,
       s.changeHistory ++ [writeRecord s p],
       s.changeHistory ++ [writeRecord s p],
       s.clock + 1⟩ := by
  cases applyOk <;> rfl

theorem writeFile_ok (s : FMState) (p c : String) (applyOk : Bool) :
    (writeFile s p c applyOk).ok = applyOk := by
  cases applyOk <;> rfl

theorem recordsFor_append (h₁ h₂ : List ChangeRecord) (p : String) :
    recordsFor (h₁ ++ h₂) p = recordsFor h₁ p ++ recordsFor h₂ p :=
  List.filter_append h₁ h₂

theorem recordsFor_single_self (r : ChangeRecord) (p : String)
    (h : r.filePath = p) : recordsFor [r] p = [r] := by
  simp [recordsFor, h]

theorem recordsFor_single_ne (r : ChangeRecord) (p : String)
    (h : ¬ r.filePath = p) : recordsFor [r] p = [] := by
  simp [recordsFor, h]

/-! ### The well-formedness invariant of a `FileManager` state -/

/-- Invariants maintained by every sequence of `writeFile` calls:
per-file versions are the gapless sequence `1, 2, …`; all timestamps are in
the past of `clock`; a `modified` record's backup exists, a `created`
record's does not. -/
structure WF (s : FMState) : Prop where
  versions : ∀ p, versionsOf s.changeHistory p =
    List.range' 1 (recordsFor s.changeHistory p).length
  recTimeLt : ∀ r ∈ s.changeHistory, r.timestamp < s.clock
  recKeyTimeLt : ∀ r ∈ s.changeHistory, r.originalPath.timestamp < s.clock
  backupTimeLt : ∀ k, (s.backups k).isSome → k.timestamp < s.clock
  modifiedBackup : ∀ r ∈ s.changeHistory, r.action = FileAction.modified →
    (s.backups r.originalPath).isSome
  createdNoBackup : ∀ r ∈ s.changeHistory, r.action = FileAction.created →
    s.backups r.originalPath = none

theorem WF.initState : WF initState where
  versions := fun _ => rfl
  recTimeLt := by intro r h; cases h
  recKeyTimeLt := by intro r h; cases h
  backupTimeLt := by intro k h; simp [VibeCoding.initState] at h
  modifiedBackup := by intro r h; cases h
  createdNoBackup := by intro r h; cases h

/-- Projection facts about the record a write pushes. -/
theorem writeRecord_filePath (s : FMState) (p : String) :
    (writeRecord s p).filePath = p := rfl

theorem writeRecord_version (s : FMState) (p : String) :
    (writeRecord s p).version = nextVersion s.changeHistory p := rfl

theorem writeRecord_timestamp (s : FMState) (p : String) :
    (writeRecord s p).timestamp = s.clock := rfl

theorem writeRecord_originalPath (s : FMState) (p : String) :
    (writeRecord s p).originalPath = writeName s p := rfl

theorem writeName_timestamp (s : FMState) (p : String) :
    (writeName s p).timestamp = s.clock := rfl

theorem update_self {α β : Type} [DecidableEq α] (f : α → Option β) (k : α)
    (v : β) : update f k v k = some v := by simp [update]

theorem update_ne {α β : Type} [DecidableEq α] (f : α → Option β) (k : α)
    (v : β) (x : α) (h : ¬ x = k) : update f k v x = f x := by
  simp [update, h]

theorem writeBackups_of_none {s : FMState} {p : String}
    (hof : s.files p = none) : writeBackups s p = s.backups := by
  unfold writeBackups
  rw [hof]

theorem writeBackups_of_some {s : FMState} {p : String} {old : String}
    (hof : s.files p = some old) :
    writeBackups s p = update s.backups (writeName s p) old := by
  unfold writeBackups
  rw [hof]

theorem writeBackups_isSome_of {s : FMState} (p : String) {k : BackupName}
    (hb : (s.backups k).isSome) : (writeBackups s p k).isSome := by
  cases hof : s.files p with
  | none => rw [writeBackups_of_none hof]; exact hb
  | some old =>
    rw [writeBackups_of_some hof]
    by_cases hk : k = writeName s p
    · subst hk; rw [update_self]; rfl
    · rw [update_ne _ _ _ _ hk]; exact hb

theorem writeBackups_ne {s : FMState} (p : String) {k : BackupName}
    (h : ¬ k = writeName s p) : writeBackups s p k = s.backups k := by
  cases hof : s.files p with
  | none => rw [writeBackups_of_none hof]
  | some old => rw [writeBackups_of_some hof]; exact update_ne _ _ _ _ h

theorem writeBackups_modified {s : FMState} {p : String} {old : String}
    (hof : s.files p = some old) :
    writeBackups s p (writeName s p) = some old := by
  rw [writeBackups_of_some hof]
  exact update_self _ _ _

/-- Under the invariant, the next version for `p` is one more than the number
of records already present for `p`. -/
theorem WF.nextVersion_eq {s : FMState} (hs : WF s) (p : String) :
    nextVersion s.changeHistory p = (recordsFor s.changeHistory p).length + 1 := by
  have hv : (recordsFor s.changeHistory p).map (·.version) =
      List.range' 1 (recordsFor s.changeHistory p).length := hs.versions p
  unfold nextVersion
  rcases Nat.eq_zero_or_pos (recordsFor s.changeHistory p).length with h0 | hpos
  · simp [h0]
  · rw [if_pos hpos, hv, foldl_max_range']

/-- Every version already recorded for `p` is strictly below the next one. -/
theorem version_lt_nextVersion {h : List ChangeRecord} {p : String}
    {r : ChangeRecord} (hr : r ∈ h) (hp : r.filePath = p) :
    r.version < nextVersion h p := by
  have hmem : r ∈ recordsFor h p := by
    simp [recordsFor, List.mem_filter, hr, hp]
  have hlen : 0 < (recordsFor h p).length := List.length_pos_of_mem hmem
  have hmax : r.version ≤ ((recordsFor h p).map (·.version)).foldl max 0 :=
    mem_le_foldl_max _ _ (List.mem_map_of_mem _ hmem) 0
  unfold nextVersion
  rw [if_pos hlen]
  omega

/-- `writeFile` preserves the invariant; the `files` and `persisted`
components are irrelevant to `WF`, so this covers both apply outcomes. -/
theorem WF.post {s : FMState} (hs : WF s) (p : String)
    (files' : String → Option String) (persisted' : List ChangeRecord) :
    WF ⟨files', writeBackups s p,
        s.changeHistory ++ [writeRecord s p], persisted', s.clock + 1⟩ := by
  have hver := hs.nextVersion_eq p
  refine ⟨?_, ?_, ?_, ?_, ?_, ?_⟩
  · intro q
    show versionsOf (s.changeHistory ++ [writeRecord s p]) q =
      List.range' 1 (recordsFor (s.changeHistory ++ [writeRecord s p]) q).length
    by_cases hq : p = q
    · subst hq
      have hrec : recordsFor [writeRecord s p] p = [writeRecord s p] :=
        recordsFor_single_self _ _ rfl
      rw [versionsOf, recordsFor_append, hrec, List.map_append, List.length_append]
      have hv : (recordsFor s.changeHistory p).map (·.version) =
          List.range' 1 (recordsFor s.changeHistory p).length := hs.versions p
      rw [hv, List.map_cons, List.map_nil, writeRecord_version, hver,
        List.length_cons, List.length_nil, List.range'_concat]
      have : 1 * (recordsFor s.changeHistory p).length =
          (recordsFor s.changeHistory p).length := Nat.one_mul _
      rw [this, Nat.add_comm]
    · have hrec : recordsFor [writeRecord s p] q = [] :=
        recordsFor_single_ne _ _ (fun hc => hq hc)
      rw [versionsOf, recordsFor_append, hrec, List.map_append, List.map_nil,
        List.append_nil, List.length_append, List.length_nil, Nat.add_zero]
      exact hs.versions q
  · intro r hr
    show r.timestamp < s.clock + 1
    rcases List.mem_append.mp hr with hmem | hmem
    · exact Nat.lt_succ_of_lt (hs.recTimeLt r hmem)
    · rcases List.mem_singleton.mp hmem with rfl
      rw [writeRecord_timestamp]
      omega
  · intro r hr
    show r.originalPath.timestamp < s.clock + 1
    rcases List.mem_append.mp hr with hmem | hmem
    · exact Nat.lt_succ_of_lt (hs.recKeyTimeLt r hmem)
    · rcases List.mem_singleton.mp hmem with rfl
      rw [writeRecord_originalPath, writeName_timestamp]
      omega
  · intro k hk
    show k.timestamp < s.clock + 1
    by_cases hkk : k = writeName s p
    · subst hkk
      rw [writeName_timestamp]
      omega
    · rw [show (⟨files', writeBackups s p, s.changeHistory ++ [writeRecord s p],
          persisted', s.clock + 1⟩ : FMState).backups = writeBackups s p from rfl,
        writeBackups_ne p hkk] at hk
      exact Nat.lt_succ_of_lt (hs.backupTimeLt k hk)
  · intro r hr hmod
    show (writeBackups s p r.originalPath).isSome
    rcases List.mem_append.mp hr with hmem | hmem
    · exact writeBackups_isSome_of p (hs.modifiedBackup r hmem hmod)
    · rcases List.mem_singleton.mp hmem with rfl
      rw [writeRecord_originalPath]
      cases hof : s.files p with
      | none =>
        exfalso
        have : (writeRecord s p).action = FileAction.created := by
          simp [writeRecord, hof]
        rw [this] at hmod
        cases hmod
      | some old =>
        rw [writeBackups_modified hof]
        rfl
  · intro r hr hcre
    show writeBackups s p r.originalPath = none
    rcases List.mem_append.mp hr with hmem | hmem
    · have hnone := hs.createdNoBackup r hmem hcre
      have hklt := hs.recKeyTimeLt r hmem
      have hkk : ¬ r.originalPath = writeName s p := by
        intro hceq
        rw [hceq, writeName_timestamp] at hklt
        omega
      rw [writeBackups_ne p hkk]
      exact hnone
    · rcases List.mem_singleton.mp hmem with rfl
      rw [writeRecord_originalPath]
      cases hof : s.files p with
      | some old =>
        exfalso
        have : (writeRecord s p).action = FileAction.modified := by
          simp [writeRecord, hof]
        rw [this] at hcre
        cases hcre
      | none =>
        rw [writeBackups_of_none hof]
        cases hb : s.backups (writeName s p) with
        | none => rfl
        | some v =>
          exfalso
          have hlt := hs.backupTimeLt (writeName s p) (by rw [hb]; rfl)
          rw [writeName_timestamp] at hlt
          omega

/-- `writeFile` preserves the invariant. -/
theorem WF.writeFile {s : FMState} (hs : WF s) (p c : String) (applyOk : Bool) :
    WF (writeFile s p c applyOk).state := by
  rw [writeFile_state]
  exact hs.post p _ _

/-! ### Stability of backups and history lookups across later writes -/

theorem clock_writeFile (s : FMState) (p c : String) (applyOk : Bool) :
    (writeFile s p c applyOk).state.clock = s.clock + 1 := by
  rw [writeFile_state]

theorem backups_writeFile_stable {s : FMState} {k : BackupName} {v : String}
    (hk : k.timestamp < s.clock) (hb : s.backups k = some v)
    (p c : String) (applyOk : Bool) :
    (writeFile s p c applyOk).state.backups k = some v := by
  rw [writeFile_state]
  show writeBackups s p k = some v
  have hne : ¬ k = writeName s p := by
    intro h
    rw [h, writeName_timestamp] at hk
    omega
  rw [writeBackups_ne p hne]
  exact hb

/-- A backup written in the past is never overwritten or deleted by later
writes: its name embeds a timestamp strictly older than every later write. -/
theorem run_backups_stable (ops : List WriteOp) {s : FMState} {k : BackupName}
    {v : String} (hk : k.timestamp < s.clock) (hb : s.backups k = some v) :
    (run ops s).backups k = some v ∧ k.timestamp < (run ops s).clock := by
  induction ops generalizing s with
  | nil => exact ⟨hb, hk⟩
  | cons op rest ih =>
    have h1 := backups_writeFile_stable hk hb op.path op.content op.applyOk
    have h2 : k.timestamp < (writeFile s op.path op.content op.applyOk).state.clock := by
      rw [clock_writeFile]
      omega
    exact ih h2 h1

/-- A record found first for a predicate keeps being found first: the log is
append-only. -/
theorem find?_run_stable (ops : List WriteOp) {s : FMState}
    {pred : ChangeRecord → Bool} {r : ChangeRecord}
    (h : s.changeHistory.find? pred = some r) :
    (run ops s).changeHistory.find? pred = some r := by
  induction ops generalizing s with
  | nil => exact h
  | cons op rest ih =>
    apply ih
    show ((writeFile s op.path op.content op.applyOk).state.changeHistory).find?
      pred = some r
    rw [writeFile_state]
    exact find?_append_some _ h

theorem revMatch_iff (p : String) (v : Nat) (r : ChangeRecord) :
    revMatch p v r = true ↔ r.filePath = p ∧ r.version = v := by
  simp [revMatch]

/-- Under the invariant there is at most one record per `(path, version)`
pair, so `find?` returns exactly the known one. -/
theorem WF.find?_eq {s : FMState} (hs : WF s) {r : ChangeRecord} {p : String}
    {v : Nat} (hr : r ∈ s.changeHistory) (hp : r.filePath = p)
    (hv : r.version = v) :
    s.changeHistory.find? (revMatch p v) = some r := by
  have hpr : revMatch p v r = true := (revMatch_iff p v r).mpr ⟨hp, hv⟩
  cases hfind : s.changeHistory.find? (revMatch p v) with
  | none => exact absurd hpr (by simpa using List.find?_eq_none.mp hfind r hr)
  | some r0 =>
    have hr0mem : r0 ∈ s.changeHistory := List.mem_of_find?_eq_some hfind
    obtain ⟨hp0, hv0⟩ := (revMatch_iff p v r0).mp (List.find?_some hfind)
    have hmem : r ∈ recordsFor s.changeHistory p := by
      simp [recordsFor, List.mem_filter, hr, hp]
    have hmem0 : r0 ∈ recordsFor s.changeHistory p := by
      simp [recordsFor, List.mem_filter, hr0mem, hp0]
    have hnodup : ((recordsFor s.changeHistory p).map (·.version)).Nodup := by
      have hver : (recordsFor s.changeHistory p).map (·.version) =
          List.range' 1 (recordsFor s.changeHistory p).length := hs.versions p
      rw [hver]
      exact List.nodup_range' _ _
    have hveq : r0.version = r.version := by rw [hv0, hv]
    have : r0 = r := List.inj_on_of_nodup_map hnodup hmem0 hmem hveq
    rw [this]

/-- Invariant along any run. -/
theorem WF.run {s : FMState} (hs : WF s) (ops : List WriteOp) : WF (run ops s) := by
  induction ops generalizing s with
  | nil => exact hs
  | cons op rest ih => exact ih (hs.writeFile op.path op.content op.applyOk)

/-! ### Claim theorems about the versioned file store -/

/-- C2: For every sequence of `writeFile` calls, the version numbers recorded
in the ChangeRecords of any one logical path form the gapless strictly
increasing sequence `1, 2, …`, and one further write to that path records
exactly the previous maximum plus one (`1` for the first write). -/
theorem versions_gapless (ops : List WriteOp) (p : String) :
    versionsOf (run ops initState).changeHistory p =
      List.range' 1 (recordsFor (run ops initState).changeHistory p).length ∧
    ∀ c applyOk,
      versionsOf (writeFile (run ops initState) p c applyOk).state.changeHistory p =
        versionsOf (run ops initState).changeHistory p ++
          [(versionsOf (run ops initState).changeHistory p).foldl max 0 + 1] := by
  have hwf : WF (run ops initState) := WF.initState.run ops
  refine ⟨hwf.versions p, ?_⟩
  intro c applyOk
  rw [writeFile_state]
  show versionsOf ((run ops initState).changeHistory ++
    [writeRecord (run ops initState) p]) p = _
  rw [versionsOf, recordsFor_append,
    recordsFor_single_self (writeRecord (run ops initState) p) p
      (writeRecord_filePath _ _),
    List.map_append, List.map_cons, List.map_nil, writeRecord_version]
  have hfold : (versionsOf (run ops initState).changeHistory p).foldl max 0 =
      (recordsFor (run ops initState).changeHistory p).length := by
    rw [hwf.versions p, foldl_max_range']
  rw [hfold, hwf.nextVersion_eq p]
  rfl

/-- C10: when applying the new content fails, `writeFile` reports the error
but the `ChangeRecord` was already appended to the in-memory history and
persisted to the durable log, the backup for that version was already taken,
and no file content changed — nothing is rolled back. -/
theorem writeFile_records_before_apply (s : FMState) (p c : String) :
    (writeFile s p c false).ok = false ∧
    (writeFile s p c false).state.changeHistory =
      s.changeHistory ++ [writeRecord s p] ∧
    (writeFile s p c false).state.persisted =
      (writeFile s p c false).state.changeHistory ∧
    (writeFile s p c false).state.files = s.files ∧
    (∀ old, s.files p = some old →
      (writeFile s p c false).state.backups (writeName s p) = some old) := by
  refine ⟨rfl, rfl, rfl, rfl, ?_⟩
  intro old hof
  show writeBackups s p (writeName s p) = some old
  exact writeBackups_modified hof

/-- Witness for C10 at a concrete overwrite: after a failed apply, the
pre-image of the doomed write is in the backup store. -/
theorem writeFile_records_before_apply_witness :
    (run [wr "a" "x"] initState).files "a" = some "x" ∧
    (writeFile (run [wr "a" "x"] initState) "a" "y" false).state.backups
      (writeName (run [wr "a" "x"] initState) "a") = some "x" :=
  ⟨by decide,
   (writeFile_records_before_apply (run [wr "a" "x"] initState) "a" "y").2.2.2.2
     "x" (by decide)⟩

/-- C3: if version `n`'s write to `p` overwrote existing content `c` (the
live content immediately before that write), then — after any further
writes — `revertToVersion p n` succeeds and a subsequent `readFile p`
returns exactly `c`. -/
theorem revert_restores_preimage (ops1 ops2 : List WriteOp)
    (p c cNew : String) (applyOk : Bool)
    (hLive : readFile (run ops1 initState) p = some c) :
    (revertToVersion
        (run ops2 (writeFile (run ops1 initState) p cNew applyOk).state) p
        (nextVersion (run ops1 initState).changeHistory p)).2 =
      RevertOutcome.ok ∧
    readFile
      (revertToVersion
        (run ops2 (writeFile (run ops1 initState) p cNew applyOk).state) p
        (nextVersion (run ops1 initState).changeHistory p)).1 p = some c := by
  set s1 := run ops1 initState with hs1
  set n := nextVersion s1.changeHistory p with hn
  set s2 := run ops2 (writeFile s1 p cNew applyOk).state with hs2
  have hfile : s1.files p = some c := hLive
  have hrec_mem : ((writeFile s1 p cNew applyOk).state.changeHistory).find?
      (revMatch p n) = some (writeRecord s1 p) := by
    rw [writeFile_state]
    show (s1.changeHistory ++ [writeRecord s1 p]).find? (revMatch p n) = _
    rw [List.find?_append]
    have hnone : s1.changeHistory.find? (revMatch p n) = none := by
      apply List.find?_eq_none.mpr
      intro r hr hmatch
      obtain ⟨hp, hv⟩ := (revMatch_iff p n r).mp hmatch
      have := version_lt_nextVersion hr hp
      omega
    rw [hnone]
    have hm : revMatch p n (writeRecord s1 p) = true :=
      (revMatch_iff _ _ _).mpr ⟨writeRecord_filePath _ _, writeRecord_version _ _⟩
    simp [List.find?, hm]
  have hback : (writeFile s1 p cNew applyOk).state.backups (writeName s1 p) =
      some c := by
    rw [writeFile_state]
    show writeBackups s1 p (writeName s1 p) = some c
    exact writeBackups_modified hfile
  have hts : (writeName s1 p).timestamp <
      (writeFile s1 p cNew applyOk).state.clock := by
    rw [clock_writeFile, writeName_timestamp]
    omega
  have hfind2 : s2.changeHistory.find? (revMatch p n) =
      some (writeRecord s1 p) := find?_run_stable ops2 hrec_mem
  have hback2 : s2.backups (writeName s1 p) = some c :=
    (run_backups_stable ops2 hts hback).1
  have hrev : revertToVersion s2 p n =
      ((writeFile s2 p c true).state, RevertOutcome.ok) := by
    unfold revertToVersion
    rw [hfind2]
    simp only [writeRecord_originalPath, hback2, writeFile_ok, if_true]
  refine ⟨by rw [hrev], ?_⟩
  rw [hrev]
  show (writeFile s2 p c true).state.files p = some c
  rw [writeFile_state]
  show update s2.files p c p = some c
  exact update_self _ _ _

/-- Witness for C3: write `x` then overwrite with `y` (version 2), write an
unrelated file, revert to version 2 and read back the pre-image `x`. -/
theorem revert_restores_preimage_witness :
    readFile (run [wr "a" "x"] initState) "a" = some "x" ∧
    ((revertToVersion
        (run [wr "b" "z"] (writeFile (run [wr "a" "x"] initState) "a" "y" true).state)
        "a" (nextVersion (run [wr "a" "x"] initState).changeHistory "a")).2 =
      RevertOutcome.ok ∧
    readFile
      (revertToVersion
        (run [wr "b" "z"] (writeFile (run [wr "a" "x"] initState) "a" "y" true).state)
        "a" (nextVersion (run [wr "a" "x"] initState).changeHistory "a")).1 "a" =
      some "x") :=
  ⟨by decide,
   revert_restores_preimage [wr "a" "x"] [wr "b" "z"] "a" "x" "y" true (by decide)⟩

/-- C4 counterexample: after creating `a` (version 1, action `created`), a
ChangeRecord for `("a", 1)` exists, yet `revertToVersion "a" 1` does not
succeed — it fails reading the (never written) backup file. -/
theorem revert_created_record_fails :
    (∃ r ∈ (run [wr "a" "x"] initState).changeHistory,
        r.filePath = "a" ∧ r.version = 1) ∧
    ¬ (revertToVersion (run [wr "a" "x"] initState) "a" 1).2 =
        RevertOutcome.ok ∧
    (revertToVersion (run [wr "a" "x"] initState) "a" 1).2 =
      RevertOutcome.backupReadFailed := by
  refine ⟨?_, by decide, by decide⟩
  exact ⟨⟨"a", 1, 0, ⟨"a", 1, 0⟩, FileAction.created⟩, by decide, rfl, rfl⟩

/-- C4 (amended): `revertToVersion` fails with the version-not-found error
exactly when no ChangeRecord exists for the exact pair; when a record with
action `modified` exists the call succeeds via a normal additive `writeFile`
(history is only appended to); when the matching record's action is
`created`, no backup file exists and the call fails reading it. -/
theorem revertToVersion_spec (ops : List WriteOp) (p : String) (v : Nat) :
    ((revertToVersion (run ops initState) p v).2 =
        RevertOutcome.versionNotFound ↔
      ∀ r ∈ (run ops initState).changeHistory,
        ¬ (r.filePath = p ∧ r.version = v)) ∧
    (∀ r ∈ (run ops initState).changeHistory, r.filePath = p → r.version = v →
      r.action = FileAction.modified →
      (revertToVersion (run ops initState) p v).2 = RevertOutcome.ok ∧
      (revertToVersion (run ops initState) p v).1.changeHistory =
        (run ops initState).changeHistory ++
          [writeRecord (run ops initState) p]) ∧
    (∀ r ∈ (run ops initState).changeHistory, r.filePath = p → r.version = v →
      r.action = FileAction.created →
      (revertToVersion (run ops initState) p v).2 =
        RevertOutcome.backupReadFailed) := by
  have hwf : WF (run ops initState) := WF.initState.run ops
  refine ⟨?_, ?_, ?_⟩
  · constructor
    · intro hout r hr ⟨hp, hv⟩
      have hfind := hwf.find?_eq hr hp hv
      unfold revertToVersion at hout
      rw [hfind] at hout
      simp only at hout
      rcases hb : (run ops initState).backups r.originalPath with _ | val
      · rw [hb] at hout
        simp at hout
      · rw [hb] at hout
        simp only [writeFile_ok] at hout
        simp at hout
    · intro hnone
      have hfind : (run ops initState).changeHistory.find? (revMatch p v) =
          none := by
        apply List.find?_eq_none.mpr
        intro r hr hmatch
        exact hnone r hr ((revMatch_iff p v r).mp hmatch)
      unfold revertToVersion
      rw [hfind]
  · intro r hr hp hv hmod
    have hfind := hwf.find?_eq hr hp hv
    have hsome := hwf.modifiedBackup r hr hmod
    rcases hb : (run ops initState).backups r.originalPath with _ | val
    · rw [hb] at hsome
      cases hsome
    · have hrev : revertToVersion (run ops initState) p v =
          ((writeFile (run ops initState) p val true).state,
            RevertOutcome.ok) := by
        unfold revertToVersion
        rw [hfind]
        simp only [hb, writeFile_ok, if_true]
      rw [hrev]
      exact ⟨rfl, by rw [writeFile_state]⟩
  · intro r hr hp hv hcre
    have hfind := hwf.find?_eq hr hp hv
    have hnone := hwf.createdNoBackup r hr hcre
    unfold revertToVersion
    rw [hfind]
    simp only [hnone]

/-- Witness for C4 (amended): a `modified` record at version 2 exists, the
revert succeeds; and probing a missing pair fails with version-not-found. -/
theorem revertToVersion_spec_witness :
    (revertToVersion (run [wr "a" "x", wr "a" "y"] initState) "a" 2).2 =
      RevertOutcome.ok ∧
    (revertToVersion (run [wr "a" "x", wr "a" "y"] initState) "a" 2).1.changeHistory =
      (run [wr "a" "x", wr "a" "y"] initState).changeHistory ++
        [writeRecord (run [wr "a" "x", wr "a" "y"] initState) "a"] :=
  (revertToVersion_spec [wr "a" "x", wr "a" "y"] "a" 2).2.1
    ⟨"a", 2, 1, ⟨"a", 2, 1⟩, FileAction.modified⟩ (by decide) rfl rfl rfl

/-! ### The task pipeline (`src/autoCoder.ts`) -/

/-- `Task` from `src/taskParser.ts`, as consumed by `startAutoMode`. -/
structure Task where
  prompt : String
  file : String
  testCommand : String
deriving DecidableEq, Repr

/-- Observable actions of one pipeline run, in execution order. -/
inductive PipelineEvent where
  /-- `llm.generateCode(task.prompt, ... temperature ...)` in `startAutoMode` -/
  | generate (prompt : String) (temperature : ℚ)
  /-- `files.writeFile(task.file, ...)` -/
  | write (file : String)
  /-- `terminal.runCommand(task.testCommand, ws)` -/
  | testRun (cmd : String)
  /-- `recovery.analyzeAndFix(e.message, task.file)` -/
  | recover (errorMsg : String) (file : String)
  /-- the `Could not auto-fix ... after multiple attempts` warning -/
  | warnUnfixed (file : String)
  /-- the `Test passed` log line -/
  | testPassed (file : String)
deriving DecidableEq, Repr

/-- The generation temperature `startAutoMode` passes to `generateCode`:
`performance === 'efficient' ? 0.5 : 0.7`. -/
def taskTemperature (performance : String) : ℚ :=
  if performance == "efficient" then 1/2 else 7/10

/-- The `while (attempt < 3)` loop of `AutoCoder.testAndFix`.  `fuel` equals
`3 - attempt`, making the recursion structural.  `testResult n` is the
outcome of the test command on attempt `n` (`none` = exit 0, `some msg` = the
failure message), and `fixes n` is the patched content `analyzeAndFix`
returns after failure `n`.  Writes to the task file go through `writeFile`;
`analyzeAndFix`'s own backup copies target `.vibe/backups/...` paths through
a separate `FileManager` instance and never carry the task file's path, so
they do not contribute records for the task file. -/
def testAndFixGo (task : Task) (testResult : Nat → Option String)
    (fixes : Nat → String) :
    FMState → Nat → Nat → FMState × List PipelineEvent
  | s, _, 0 => (s, [PipelineEvent.warnUnfixed task.file])
  | s, attempt, fuel + 1 =>
    match testResult attempt with
    | none => (s, [PipelineEvent.testRun task.testCommand,
                   PipelineEvent.testPassed task.file])
    | some errMsg =>
      let s1 := (writeFile s task.file (fixes attempt) true).state
      let rest := testAndFixGo task testResult fixes s1 (attempt + 1) fuel
      (rest.1, PipelineEvent.testRun task.testCommand ::
        PipelineEvent.recover errMsg task.file ::
        PipelineEvent.write task.file :: rest.2)

/-- `AutoCoder.testAndFix(task, log, ws)` starting from `attempt = 0`. -/
def testAndFix (s : FMState) (task : Task) (testResult : Nat → Option String)
    (fixes : Nat → String) : FMState × List PipelineEvent :=
  testAndFixGo task testResult fixes s 0 3

/-- The per-task body of the loop in `startAutoMode`: generate code, write
it, then `testAndFix` (quality checks touch no files and catch their own
errors). `generated` is the LLM's output for the task prompt. -/
def executeTask (s : FMState) (task : Task) (performance generated : String)
    (testResult : Nat → Option String) (fixes : Nat → String) :
    FMState × List PipelineEvent :=
  let s1 := (writeFile s task.file generated true).state
  let rest := testAndFix s1 task testResult fixes
  (rest.1, PipelineEvent.generate task.prompt (taskTemperature performance) ::
    PipelineEvent.write task.file :: rest.2)

/-- The task loop of `startAutoMode` over the whole task list; the index `i`
selects each task's generated code, test outcomes and fixes. -/
def runTasks (performance : String) (generated : Nat → String)
    (testResult : Nat → Nat → Option String) (fixes : Nat → Nat → String) :
    FMState → List Task → Nat → FMState × List PipelineEvent
  | s, [], _ => (s, [])
  | s, task :: rest, i =>
    let one := executeTask s task performance (generated i) (testResult i)
      (fixes i)
    let more := runTasks performance generated testResult fixes one.1 rest
      (i + 1)
    (more.1, one.2 ++ more.2)

theorem recordsFor_run_all_self (p : String) (ops : List WriteOp)
    (hall : ∀ op ∈ ops, op.path = p) (s : FMState) :
    (recordsFor (run ops s).changeHistory p).length =
      (recordsFor s.changeHistory p).length + ops.length := by
  induction ops generalizing s with
  | nil => rfl
  | cons op rest ih =>
    have hop : op.path = p := hall op (List.mem_cons_self op rest)
    have hrest : ∀ o ∈ rest, o.path = p := fun o ho =>
      hall o (List.mem_cons_of_mem op ho)
    show (recordsFor (run rest (writeFile s op.path op.content
      op.applyOk).state).changeHistory p).length = _
    rw [ih hrest, writeFile_state]
    show (recordsFor (s.changeHistory ++ [writeRecord s op.path]) p).length +
      rest.length = _
    rw [recordsFor_append, List.length_append,
      recordsFor_single_self _ _ (by rw [writeRecord_filePath, hop])]
    simp [Nat.add_comm, Nat.add_assoc, Nat.add_left_comm]
/-- C1 counterexample: the spec scenario — task
`prompt "hello", file "src/a.py", testCommand "python src/a.py"` whose test
always exits non-zero.  The test runs exactly 3 times, but the final change
history for `src/a.py` holds the versions 1–4 (four ChangeRecords: the
initial generation write plus the three fix rewrites), not versions 1–3. -/
theorem task_always_failing_history_not_three :
    (executeTask initState ⟨"hello", "src/a.py", "python src/a.py"⟩
        "balanced" "code0" (fun _ => some "exit 1") (fun _ => "fix")).2.count
      (PipelineEvent.testRun "python src/a.py") = 3 ∧
    versionsOf (executeTask initState ⟨"hello", "src/a.py", "python src/a.py"⟩
        "balanced" "code0" (fun _ => some "exit 1")
        (fun _ => "fix")).1.changeHistory "src/a.py" = [1, 2, 3, 4] ∧
    ¬ versionsOf (executeTask initState ⟨"hello", "src/a.py", "python src/a.py"⟩
        "balanced" "code0" (fun _ => some "exit 1")
        (fun _ => "fix")).1.changeHistory "src/a.py" = [1, 2, 3] :=
  ⟨by decide, by decide, by decide⟩

/-- C1 (amended): for every task whose test command always fails, the
pipeline runs the test exactly 3 times in total, invoking the recovery
engine and rewriting the file after each failure, then logs the warning and
proceeds to the following tasks without aborting; the final change history
for the task's file contains exactly 4 ChangeRecords with versions 1
through 4 (the initial generation write plus one rewrite per failure). -/
theorem task_always_failing_retries (p prompt cmd generated performance :
    String) (errMsg : Nat → String) (fixes : Nat → String) :
    (executeTask initState ⟨prompt, p, cmd⟩ performance generated
        (fun n => some (errMsg n)) fixes).2 =
      [PipelineEvent.generate prompt (taskTemperature performance),
       PipelineEvent.write p,
       PipelineEvent.testRun cmd, PipelineEvent.recover (errMsg 0) p,
       PipelineEvent.write p,
       PipelineEvent.testRun cmd, PipelineEvent.recover (errMsg 1) p,
       PipelineEvent.write p,
       PipelineEvent.testRun cmd, PipelineEvent.recover (errMsg 2) p,
       PipelineEvent.write p,
       PipelineEvent.warnUnfixed p] ∧
    versionsOf (executeTask initState ⟨prompt, p, cmd⟩ performance generated
        (fun n => some (errMsg n)) fixes).1.changeHistory p = [1, 2, 3, 4] ∧
    (∀ (rest : List Task) (i : Nat) (gen : Nat → String)
        (testResult : Nat → Nat → Option String)
        (fixesAll : Nat → Nat → String) (s : FMState),
      (runTasks performance gen testResult fixesAll s
          (⟨prompt, p, cmd⟩ :: rest) i).2 =
        (executeTask s ⟨prompt, p, cmd⟩ performance (gen i) (testResult i)
          (fixesAll i)).2 ++
        (runTasks performance gen testResult fixesAll
          (executeTask s ⟨prompt, p, cmd⟩ performance (gen i) (testResult i)
            (fixesAll i)).1 rest (i + 1)).2) := by
  refine ⟨rfl, ?_, fun _ _ _ _ _ _ => rfl⟩
  have hstate : (executeTask initState ⟨prompt, p, cmd⟩ performance generated
      (fun n => some (errMsg n)) fixes).1 =
    run [wr p generated, wr p (fixes 0), wr p (fixes 1), wr p (fixes 2)]
      initState := rfl
  rw [hstate]
  have hwf := WF.initState.run
    [wr p generated, wr p (fixes 0), wr p (fixes 1), wr p (fixes 2)]
  have hlen := recordsFor_run_all_self p
    [wr p generated, wr p (fixes 0), wr p (fixes 1), wr p (fixes 2)]
    (by simp [wr]) initState
  rw [hwf.versions p, hlen]
  rfl

/-! ### The LLM client factory (`src/AIClients.ts`) -/

/-- One client class per `case` of the `createLLMClient` switch. -/
inductive ClientKind where
  | ollama | openai | huggingface | grok | deepseek | surferai | youchat
  | semrush | piAi | mistralAi | copilot | gemini | claude | llama
  | perplexity | jasper | chatsonic | undetectable | characterAi | clickup
  | writesonic | codewhisperer
deriving DecidableEq, Repr

/-- ASCII lowercasing of one character, as `String.prototype.toLowerCase`
acts on the ASCII provider names involved here. -/
def toLowerCaseChar (c : Char) : Char :=
  if 'A' ≤ c ∧ c ≤ 'Z' then Char.ofNat (c.toNat + 32) else c

/-- `providerSetting.toLowerCase()`. -/
def toLowerCase (s : String) : String :=
  ⟨s.toList.map toLowerCaseChar⟩

/-- The static provider table: the `switch (provider)` cases of
`createLLMClient`, in source order. -/
def providerTable : List (String × ClientKind) :=
  [("ollama", ClientKind.ollama), ("openai", ClientKind.openai),
   ("huggingface", ClientKind.huggingface), ("grok", ClientKind.grok),
   ("deepseek", ClientKind.deepseek), ("surferai", ClientKind.surferai),
   ("youchat", ClientKind.youchat), ("semrush", ClientKind.semrush),
   ("pi.ai", ClientKind.piAi), ("mistral.ai", ClientKind.mistralAi),
   ("copilot", ClientKind.copilot), ("gemini", ClientKind.gemini),
   ("claude", ClientKind.claude), ("llama", ClientKind.llama),
   ("perplexity", ClientKind.perplexity), ("jasper", ClientKind.jasper),
   ("chatsonic", ClientKind.chatsonic),
   ("undetectable", ClientKind.undetectable),
   ("character.ai", ClientKind.characterAi),
   ("clickup", ClientKind.clickup), ("writesonic", ClientKind.writesonic),
   ("codewhisperer", ClientKind.codewhisperer)]

/-- `createLLMClient(settings, logger)`: read the configured provider name,
lowercase it, dispatch over the static switch; the `default` branch logs a
warning (the returned boolean) and falls back to the Ollama client.  Every
branch returns a client — none throws. -/
def createLLMClient (providerSetting : String) : ClientKind × Bool :=
  let provider := toLowerCase providerSetting
  match providerTable.find? (fun e => e.1 == provider) with
  | some e => (e.2, false)
  | none => (ClientKind.ollama, true)

/-- C5: `createLLMClient` never fails: the name is looked up
case-insensitively (via lowercasing) in the static table; any name whose
lowercase form is not in the table yields the default Ollama client plus a
logged warning, and any name found in the table yields that provider's
client with no warning. -/
theorem createLLMClient_spec (s : String) :
    ((∀ e ∈ providerTable, ¬ e.1 = toLowerCase s) →
      createLLMClient s = (ClientKind.ollama, true)) ∧
    (∀ e, providerTable.find? (fun x => x.1 == toLowerCase s) = some e →
      createLLMClient s = (e.2, false)) := by
  constructor
  · intro hnone
    have hfind : providerTable.find? (fun e => e.1 == toLowerCase s) = none :=
      List.find?_eq_none.mpr (fun e he => by simpa using hnone e he)
    show (match providerTable.find? (fun e => e.1 == toLowerCase s) with
      | some e => (e.2, false)
      | none => (ClientKind.ollama, true)) = (ClientKind.ollama, true)
    rw [hfind]
  · intro e hfind
    show (match providerTable.find? (fun x => x.1 == toLowerCase s) with
      | some e => (e.2, false)
      | none => (ClientKind.ollama, true)) = (e.2, false)
    rw [hfind]

/-- Witness for C5: an unknown provider name (in arbitrary case) falls back
to Ollama with a warning, and a known name in upper case dispatches
case-insensitively without one. -/
theorem createLLMClient_spec_witness :
    createLLMClient "Some Unknown Provider" = (ClientKind.ollama, true) ∧
    createLLMClient "MISTRAL.AI" = (ClientKind.mistralAi, false) :=
  ⟨(createLLMClient_spec "Some Unknown Provider").1 (by decide),
   (createLLMClient_spec "MISTRAL.AI").2 ("mistral.ai", ClientKind.mistralAi)
     (by decide)⟩

/-- Endpoint selection in the `OllamaClient` constructor
(`src/AIClients.ts` lines 50–60; same structure in `src/ollamaClient.ts`).
The candidate list is `[custom, local, docker].filter(u => u)`.  The loop
body calls `axios.get(url + "/api/tags", timeout 500)` WITHOUT `await`:
`axios.get` returns a promise and throws nothing synchronously, so the
`catch` never fires and the loop breaks on its first iteration.
`reachable` records which candidates would answer the liveness probe; the
selection provably never depends on it. -/
def chooseOllamaEndpoint (custom localUrl dockerUrl : String)
    (reachable : String → Bool) : String :=
  let urls := [custom, localUrl, dockerUrl].filter (fun u => ¬ u = "")
  match urls with
  | [] => ""
  | u :: _ => u

/-- Follows the spec's words (§4.1): probe each candidate in order with the
liveness check, bind to the first reachable one, and fall back to the first
candidate if none respond. -/
def chooseOllamaEndpointSpec (custom localUrl dockerUrl : String)
    (reachable : String → Bool) : String :=
  let urls := [custom, localUrl, dockerUrl].filter (fun u => ¬ u = "")
  match urls.find? reachable with
  | some u => u
  | none => urls.headD ""

/-- C6: the constructor never actually probes — because the `axios.get`
promise is not awaited, the code binds the first candidate even when only a
later one is reachable, diverging from the documented first-reachable
behaviour; in general the chosen endpoint is independent of reachability. -/
theorem ollama_endpoint_ignores_liveness :
    chooseOllamaEndpoint "http://custom:11434" "http://localhost:11434"
      "http://host.docker.internal:11434"
      (fun u => u == "http://localhost:11434") = "http://custom:11434" ∧
    chooseOllamaEndpointSpec "http://custom:11434" "http://localhost:11434"
      "http://host.docker.internal:11434"
      (fun u => u == "http://localhost:11434") = "http://localhost:11434" ∧
    ¬ ("http://custom:11434" : String) = "http://localhost:11434" ∧
    ∀ custom localUrl dockerUrl r₁ r₂,
      chooseOllamaEndpoint custom localUrl dockerUrl r₁ =
        chooseOllamaEndpoint custom localUrl dockerUrl r₂ :=
  ⟨by decide, by decide, by decide, fun _ _ _ _ _ => rfl⟩

/-- The request body `OllamaClient.generateCode` posts to `/api/generate`
(`src/AIClients.ts` lines 65–69).  The method is declared as
`generateCode(prompt: string)`: the options argument of the
`LLMClient.generateCode` contract — the orchestrator passes its temperature
there — is dropped, and the hard-coded options are sent instead. -/
structure OllamaRequest where
  model : String
  prompt : String
  numCtx : Nat
  temperature : ℚ
deriving DecidableEq, Repr

/-- `opts = num_ctx: perf === 'efficient' ? 2048 : 4096, temperature: 0.7`;
`callerTemperature` is what the caller passed and is ignored, as in the
source. -/
def ollamaGenerateRequest (perf model prompt : String)
    (callerTemperature : Option ℚ) : OllamaRequest :=
  { model := model, prompt := prompt,
    numCtx := if perf == "efficient" then 2048 else 4096,
    temperature := 7/10 }

/-- C9: the orchestrator does request a strictly lower temperature in the
efficient mode (0.5 versus 0.7), but the temperature never takes effect:
the active Ollama client drops its options argument and always sends
temperature 0.7 to the provider. -/
theorem efficient_temperature_not_sent :
    taskTemperature "efficient" = 1/2 ∧
    taskTemperature "balanced" = 7/10 ∧
    taskTemperature "high" = 7/10 ∧
    taskTemperature "efficient" < taskTemperature "balanced" ∧
    (∀ model prompt t,
      (ollamaGenerateRequest "efficient" model prompt t).temperature = 7/10) ∧
    ¬ (ollamaGenerateRequest "efficient" "codellama:7b" "hello"
        (some (taskTemperature "efficient"))).temperature =
      taskTemperature "efficient" := by
  refine ⟨rfl, rfl, rfl, by show (1 : ℚ)/2 < 7/10; norm_num,
    fun _ _ _ => rfl, ?_⟩
  intro h
  rw [show (ollamaGenerateRequest "efficient" "codellama:7b" "hello"
    (some (taskTemperature "efficient"))).temperature = 7/10 from rfl,
    show taskTemperature "efficient" = 1/2 from rfl] at h
  norm_num at h

/-! ### The error classifier and recovery engine (`src/errorRecovery.ts`)

The error patterns are JavaScript regexes of the shapes `lit(.+)sfx`,
`lit(.+)` and one ad-hoc case; we embed each as a matcher returning the
first capture group, with the regex engine's leftmost-match scan, its greedy
backtracking of `(.+)` and the fact that `.` does not match a newline. -/

/-- The apostrophe character closing the quoted captures. -/
def quoteChar : Char := Char.ofNat 39

/-- The backslash character (the source's `(\\w+)` group in a regex literal
denotes an escaped backslash followed by `w+`). -/
def backslashChar : Char := Char.ofNat 92

/-- Index of the last occurrence of `pat` (as a prefix of the suffix
starting there) in the subject, if any — the position greedy backtracking
settles on. -/
def lastOccIdx (pat : List Char) : List Char → Option Nat
  | [] => if pat.isPrefixOf ([] : List Char) then some 0 else none
  | a :: t =>
    match lastOccIdx pat t with
    | some j => some (j + 1)
    | none => if pat.isPrefixOf (a :: t) then some 0 else none

/-- Greedy capture of `(.+)` before the literal `sfx`, within the current
line: everything up to the last occurrence of `sfx`, provided at least one
character precedes it. -/
def greedyCaptureBefore (sfx t : List Char) : Option (List Char) :=
  let line := t.takeWhile (fun c => ¬ c = Char.ofNat 10)
  match lastOccIdx sfx line with
  | some j => if 1 ≤ j then some (line.take j) else none
  | none => none

/-- Leftmost-match scan of a regex `lit(.+)sfx`: at each start position try
the literal then the greedy capture, advancing one character on failure. -/
def scanCapture (lit sfx : List Char) : List Char → Option (List Char)
  | [] => none
  | a :: t =>
    match (if lit.isPrefixOf (a :: t) then
        greedyCaptureBefore sfx ((a :: t).drop lit.length)
      else none) with
    | some cap => some cap
    | none => scanCapture lit sfx t

/-- Leftmost-match scan of a regex `lit(.+)` (capture to end of line). -/
def scanCaptureLine (lit : List Char) : List Char → Option (List Char)
  | [] => none
  | a :: t =>
    match (if lit.isPrefixOf (a :: t) then
        (let line := ((a :: t).drop lit.length).takeWhile
          (fun c => ¬ c = Char.ofNat 10)
         if line = [] then none else some line)
      else none) with
    | some cap => some cap
    | none => scanCaptureLine lit t

/-- `/ModuleNotFoundError: No module named '(.+)'/` -/
def pyModuleCapture (msg : String) : Option (List Char) :=
  scanCapture ("ModuleNotFoundError: No module named ".toList ++ [quoteChar])
    [quoteChar] msg.toList

/-- `/Cannot find module '(.+)'/` -/
def nodeModuleCapture (msg : String) : Option (List Char) :=
  scanCapture ("Cannot find module ".toList ++ [quoteChar]) [quoteChar]
    msg.toList

/-- `/SyntaxError: (.+)/` -/
def syntaxErrorCapture (msg : String) : Option (List Char) :=
  scanCaptureLine "SyntaxError: ".toList msg.toList

/-- `/TypeError: (.+) is not a function/` -/
def typeErrorCapture (msg : String) : Option (List Char) :=
  scanCapture "TypeError: ".toList " is not a function".toList msg.toList

/-- `/ReferenceError: (\\w+) is not defined/`.  In the regex literal the
group is an escaped backslash followed by `w+`, so it matches a literal
backslash and then one or more `w` characters (a transcription slip in the
source, embedded faithfully). -/
def refErrorCapture (msg : String) : Option (List Char) :=
  go msg.toList
where
  go : List Char → Option (List Char)
  | [] => none
  | a :: t =>
    match (if ("ReferenceError: ".toList).isPrefixOf (a :: t) then
        (match (a :: t).drop 16 with
         | c :: u =>
           if c = backslashChar then
             (let ws := u.takeWhile (fun x => x = Char.ofNat 119)
              if ws = [] then none
              else if (" is not defined".toList).isPrefixOf (u.drop ws.length)
              then some (c :: ws) else none)
           else none
         | [] => none)
      else none) with
    | some cap => some cap
    | none => go t

/-- `/ImportError: (.+)/` -/
def importErrorCapture (msg : String) : Option (List Char) :=
  scanCaptureLine "ImportError: ".toList msg.toList

/-- `/AttributeError: (.+)/` -/
def attributeErrorCapture (msg : String) : Option (List Char) :=
  scanCaptureLine "AttributeError: ".toList msg.toList

/-- `/IndentationError: (.+)/` -/
def indentationErrorCapture (msg : String) : Option (List Char) :=
  scanCaptureLine "IndentationError: ".toList msg.toList

/-- One entry of the `errorPatterns` map: the regex (as a matcher returning
the first capture group) and its prompt template. -/
structure ErrorPattern where
  matcher : String → Option (List Char)
  template : String

/-- The `errorPatterns` map of the `ErrorRecovery` constructor, in insertion
order (a JavaScript `Map` iterates in insertion order). -/
def errorPatterns : List ErrorPattern :=
  [⟨pyModuleCapture,
    "Install the missing Python module '$1' and adjust imports."⟩,
   ⟨syntaxErrorCapture, "Fix the syntax error: $1"⟩,
   ⟨nodeModuleCapture, "Install or require the Node.js module '$1'."⟩,
   ⟨typeErrorCapture, "Ensure $1 is a callable and imported correctly."⟩,
   ⟨refErrorCapture, "Define or import the missing variable/function $1."⟩,
   ⟨importErrorCapture, "Fix the import error: $1"⟩,
   ⟨attributeErrorCapture, "Fix the attribute error: $1"⟩,
   ⟨indentationErrorCapture, "Fix the indentation: $1"⟩]

/-- `template.replace('$1', cap)`: JavaScript `replace` with a string
pattern replaces only the first occurrence. -/
def replaceFirst (pat rep : List Char) : List Char → List Char
  | [] => []
  | a :: t =>
    if pat.isPrefixOf (a :: t) then rep ++ (a :: t).drop pat.length
    else a :: replaceFirst pat rep t

/-- Template instantiation (`template.replace('$1', m[1] || '')`; the
captures here are nonempty by construction, so `m[1] || ''` is `m[1]`). -/
def applyTemplate (template : String) (cap : List Char) : String :=
  ⟨replaceFirst "$1".toList cap template.toList⟩

/-- `ErrorRecovery.findMatchingPattern`: iterate the map in insertion order,
return the first matching pattern's template with the capture substituted. -/
def findMatchingPatternIn (msg : String) : List ErrorPattern → Option String
  | [] => none
  | e :: rest =>
    match e.matcher msg with
    | some cap => some (applyTemplate e.template cap)
    | none => findMatchingPatternIn msg rest

def findMatchingPattern (msg : String) : Option String :=
  findMatchingPatternIn msg errorPatterns

/-- `ErrorRecovery.checkForDependencyError`: `pip install <pkg>` for the
Python pattern, else `npm install <pkg>` for the Node pattern, else none. -/
def checkForDependencyError (errorMsg : String) : Option String :=
  match pyModuleCapture errorMsg with
  | some pkg => some ("pip install " ++ String.mk pkg)
  | none =>
    match nodeModuleCapture errorMsg with
    | some pkg => some ("npm install " ++ String.mk pkg)
    | none => none

/-- Observable effects of `analyzeAndFix`, in execution order. -/
inductive RecoveryEvent where
  /-- `fileManager.createDirectory` -/
  | createDir (path : String)
  /-- the step-3 snapshot via `fileManager.writeFile` -/
  | backupWrite (path content : String)
  /-- `terminal.runCommand` of the dependency install -/
  | installRun (command : String)
  /-- `llm.generateCode(prompt)` -/
  | llmRequest (prompt : String)
deriving DecidableEq, Repr

/-- `path.basename(filePath)`. -/
def basename (p : String) : String :=
  ⟨(p.toList.reverse.takeWhile (fun c => ¬ c = '/')).reverse⟩

/-- `ErrorRecovery.analyzeAndFix(errorMsg, filePath)` as its ordered effect
trace plus the returned patch.  `original` is the context read in step 2
(empty when unreadable), `now` the `Date.now()` stamp in the backup name,
`llm` the active client's response function.  Step order follows the
source: ensure the backup folder, snapshot the original, run a dependency
install when detected, build the repair prompt, ask the LLM and return its
output verbatim. -/
def analyzeAndFix (errorMsg filePath original : String) (now : Nat)
    (llm : String → String) : List RecoveryEvent × String :=
  let backupName := basename filePath ++ ".backup." ++ toString now
  let installEvents :=
    match checkForDependencyError errorMsg with
    | some cmd => [RecoveryEvent.installRun cmd]
    | none => ([] : List RecoveryEvent)
  let prompt :=
    match findMatchingPattern errorMsg with
    | some pattern =>
      pattern ++ "\n\nContext:\n" ++ original ++ "\n\nError:\n" ++ errorMsg
    | none => "Fix this error: " ++ errorMsg ++ "\n\nContext:\n" ++ original
  (RecoveryEvent.createDir ".vibe/backups" ::
    RecoveryEvent.backupWrite (".vibe/backups/" ++ backupName) original ::
    installEvents ++ [RecoveryEvent.llmRequest prompt],
   llm prompt)

example :
    pyModuleCapture "ModuleNotFoundError: No module named 'requests'" =
      some "requests".toList := by decide

example :
    checkForDependencyError "ModuleNotFoundError: No module named 'requests'" =
      some "pip install requests" := by decide

example :
    checkForDependencyError "Error: Cannot find module 'express'" =
      some "npm install express" := by decide

example : checkForDependencyError "SyntaxError: bad" = none := by decide

example :
    findMatchingPattern "SyntaxError: invalid syntax" =
      some "Fix the syntax error: invalid syntax" := by decide

example :
    findMatchingPattern "SyntaxError: ImportError: x" =
      some "Fix the syntax error: ImportError: x" := by decide

example : findMatchingPattern "ReferenceError: x is not defined" = none := by
  decide

example : findMatchingPattern "something unrelated" = none := by decide

/-- Helper for C8: the first matching pattern in list order wins. -/
theorem findIn_first_match (msg : String) :
    ∀ (l : List ErrorPattern) (i : Nat) (e : ErrorPattern) (cap : List Char),
      l.get? i = some e → e.matcher msg = some cap →
      (∀ k ek, k < i → l.get? k = some ek → ek.matcher msg = none) →
      findMatchingPatternIn msg l = some (applyTemplate e.template cap)
  | [], i, e, cap, hget, _, _ => by simp at hget
  | a :: rest, 0, e, cap, hget, hm, _ => by
    injection hget with h
    subst h
    unfold findMatchingPatternIn
    rw [hm]
  | a :: rest, i + 1, e, cap, hget, hm, hearlier => by
    have ha : a.matcher msg = none := hearlier 0 a (Nat.succ_pos i) rfl
    unfold findMatchingPatternIn
    rw [ha]
    exact findIn_first_match msg rest i e cap hget hm
      (fun k ek hk hg => hearlier (k + 1) ek (Nat.succ_lt_succ hk) hg)

/-- Helper for C8: no pattern matches, no template is chosen. -/
theorem findIn_none (msg : String) :
    ∀ l : List ErrorPattern, (∀ e ∈ l, e.matcher msg = none) →
      findMatchingPatternIn msg l = none
  | [], _ => rfl
  | a :: rest, h => by
    unfold findMatchingPatternIn
    rw [h a (List.mem_cons_self a rest)]
    exact findIn_none msg rest (fun e he => h e (List.mem_cons_of_mem a he))

/-- C7: when the error text matches a dependency-missing pattern, the
install command contains the captured package name and runs strictly before
the LLM is asked for the patch. -/
theorem dependency_install_before_patch (errorMsg filePath original : String)
    (now : Nat) (llm : String → String) :
    (∀ pkg, pyModuleCapture errorMsg = some pkg →
      checkForDependencyError errorMsg =
        some ("pip install " ++ String.mk pkg) ∧
      ∃ i j prompt, i < j ∧
        (analyzeAndFix errorMsg filePath original now llm).1.get? i =
          some (RecoveryEvent.installRun ("pip install " ++ String.mk pkg)) ∧
        (analyzeAndFix errorMsg filePath original now llm).1.get? j =
          some (RecoveryEvent.llmRequest prompt)) ∧
    (∀ pkg, pyModuleCapture errorMsg = none →
      nodeModuleCapture errorMsg = some pkg →
      checkForDependencyError errorMsg =
        some ("npm install " ++ String.mk pkg) ∧
      ∃ i j prompt, i < j ∧
        (analyzeAndFix errorMsg filePath original now llm).1.get? i =
          some (RecoveryEvent.installRun ("npm install " ++ String.mk pkg)) ∧
        (analyzeAndFix errorMsg filePath original now llm).1.get? j =
          some (RecoveryEvent.llmRequest prompt)) := by
  constructor
  · intro pkg hpy
    have hdep : checkForDependencyError errorMsg =
        some ("pip install " ++ String.mk pkg) := by
      unfold checkForDependencyError
      rw [hpy]
    refine ⟨hdep, 2, 3,
      (match findMatchingPattern errorMsg with
       | some pattern => pattern ++ "\n\nContext:\n" ++ original ++
           "\n\nError:\n" ++ errorMsg
       | none => "Fix this error: " ++ errorMsg ++ "\n\nContext:\n" ++
           original),
      by omega, ?_, ?_⟩
    · simp [analyzeAndFix, hdep]
    · simp [analyzeAndFix, hdep]
  · intro pkg hpy hnode
    have hdep : checkForDependencyError errorMsg =
        some ("npm install " ++ String.mk pkg) := by
      unfold checkForDependencyError
      rw [hpy, hnode]
    refine ⟨hdep, 2, 3,
      (match findMatchingPattern errorMsg with
       | some pattern => pattern ++ "\n\nContext:\n" ++ original ++
           "\n\nError:\n" ++ errorMsg
       | none => "Fix this error: " ++ errorMsg ++ "\n\nContext:\n" ++
           original),
      by omega, ?_, ?_⟩
    · simp [analyzeAndFix, hdep]
    · simp [analyzeAndFix, hdep]

/-- Witness for C7: a Python module-not-found message triggers
`pip install requests` at an event index strictly before the LLM request. -/
theorem dependency_install_before_patch_witness :
    pyModuleCapture "ModuleNotFoundError: No module named 'requests'" =
      some "requests".toList ∧
    (checkForDependencyError "ModuleNotFoundError: No module named 'requests'" =
      some ("pip install " ++ String.mk "requests".toList) ∧
    ∃ i j prompt, i < j ∧
      (analyzeAndFix "ModuleNotFoundError: No module named 'requests'"
          "src/a.py" "orig" 0 (fun p => p)).1.get? i =
        some (RecoveryEvent.installRun
          ("pip install " ++ String.mk "requests".toList)) ∧
      (analyzeAndFix "ModuleNotFoundError: No module named 'requests'"
          "src/a.py" "orig" 0 (fun p => p)).1.get? j =
        some (RecoveryEvent.llmRequest prompt)) :=
  ⟨by decide,
   (dependency_install_before_patch
      "ModuleNotFoundError: No module named 'requests'" "src/a.py" "orig" 0
      (fun p => p)).1 "requests".toList (by decide)⟩

/-- C8: the repair prompt uses the template of the first pattern, in the
table's insertion order, whose regex matches the error text, with the
capture substituted for the placeholder — later matching patterns are
ignored; if no pattern matches, the generic fix-this-error template is used
with the same content and error framing. -/
theorem first_pattern_wins (msg filePath original : String) (now : Nat)
    (llm : String → String) :
    (∀ i e cap, errorPatterns.get? i = some e → e.matcher msg = some cap →
      (∀ k ek, k < i → errorPatterns.get? k = some ek →
        ek.matcher msg = none) →
      findMatchingPattern msg = some (applyTemplate e.template cap) ∧
      (analyzeAndFix msg filePath original now llm).2 =
        llm (applyTemplate e.template cap ++ "\n\nContext:\n" ++ original ++
          "\n\nError:\n" ++ msg)) ∧
    ((∀ e ∈ errorPatterns, e.matcher msg = none) →
      findMatchingPattern msg = none ∧
      (analyzeAndFix msg filePath original now llm).2 =
        llm ("Fix this error: " ++ msg ++ "\n\nContext:\n" ++ original)) := by
  constructor
  · intro i e cap hget hm hearlier
    have hfind : findMatchingPattern msg =
        some (applyTemplate e.template cap) :=
      findIn_first_match msg errorPatterns i e cap hget hm hearlier
    exact ⟨hfind, by simp [analyzeAndFix, hfind]⟩
  · intro hall
    have hfind : findMatchingPattern msg = none :=
      findIn_none msg errorPatterns hall
    exact ⟨hfind, by simp [analyzeAndFix, hfind]⟩

/-- Witness for C8: `"SyntaxError: ImportError: x"` matches both the
SyntaxError pattern (index 1) and the ImportError pattern (index 5); the
earlier one wins and its template is instantiated. -/
theorem first_pattern_wins_witness :
    findMatchingPattern "SyntaxError: ImportError: x" =
      some (applyTemplate "Fix the syntax error: $1" "ImportError: x".toList) ∧
    (analyzeAndFix "SyntaxError: ImportError: x" "f.py" "code" 0
        (fun p => p)).2 =
      (fun p => p) (applyTemplate "Fix the syntax error: $1"
        "ImportError: x".toList ++ "\n\nContext:\n" ++ "code" ++
        "\n\nError:\n" ++ "SyntaxError: ImportError: x") :=
  (first_pattern_wins "SyntaxError: ImportError: x" "f.py" "code" 0
      (fun p => p)).1 1 ⟨syntaxErrorCapture, "Fix the syntax error: $1"⟩
    "ImportError: x".toList rfl (by decide)
    (by
      intro k ek hk hget
      have hk0 : k = 0 := by omega
      subst hk0
      have h0 : errorPatterns.get? 0 = some ⟨pyModuleCapture,
          "Install the missing Python module '$1' and adjust imports."⟩ := rfl
      rw [h0] at hget
      injection hget with h
      rw [← h]
      decide)

end VibeCoding
